import Mathlib

/-!
Verification development for the interactive figure controllers of the
ray-optics repository: the paraxial design figure
(`gui/mpl/paraxdgnfigure.py`) and the generic interactive layout figure
(`src/rayoptics/mpl/interactivefigure.py`).

Coordinates and style values are modelled by rationals.  Matplotlib
itself (canvas, axes transforms, artists' geometric `contains` tests,
the pan machinery) is external to the repository and enters the model as
explicit parameters.  The Python code is translated function by
function; mutation of object attributes becomes explicit state passing.
-/

namespace RayOptics

/-- Mouse event data: display-pixel position `x`, `y` and data
coordinates `xdata`, `ydata`, plus button and key for pan actions. -/
structure Event where
  x : ℚ
  y : ℚ
  xdata : ℚ
  ydata : ℚ
  button : ℕ
  key : Option String
deriving DecidableEq, Repr

/-- Modelled from the spec: `util.misc_math.distance_sqr_2d`, the
squared display-pixel distance between two points, is imported by
`paraxdgnfigure.py` but its module is not part of the extracted
sources; the spec describes hit testing "via pixel-distance-to-vertex"
within a pixel tolerance, i.e. the squared Euclidean distance. -/
def distance_sqr_2d (pt0 pt1 : ℚ × ℚ) : ℚ :=
  (pt0.1 - pt1.1) ^ 2 + (pt0.2 - pt1.2) ^ 2

/-- Scan loop of `EditableLine.process_hit_location` and
`ParaxialDesignFigure.on_press`: walk the display-space hit points
(paired with their indices into the line data), tracking the least
squared distance seen so far (initialised to `1e10`) and the last
vertex recorded while strictly under the pick radius squared. -/
def hitLoop (rsqr : ℚ) (hit_pt : ℚ × ℚ) :
    List (ℕ × ℚ × ℚ) → ℚ → Option ℕ → Option ℕ
  | [], _, hit_vertex => hit_vertex
  | (idx, pt) :: rest, min_hit_dist, hit_vertex =>
    let hit_dist := distance_sqr_2d pt hit_pt
    if hit_dist < min_hit_dist then
      hitLoop rsqr hit_pt rest hit_dist
        (if hit_dist < rsqr then some idx else hit_vertex)
    else
      hitLoop rsqr hit_pt rest min_hit_dist hit_vertex

/-- Hit scan with the source's initial state: `min_hit_dist = 1e10`,
`hit_vertex = None`. -/
def hitScan (rsqr : ℚ) (hit_pt : ℚ × ℚ) (dsp_hits : List (ℕ × ℚ × ℚ)) :
    Option ℕ :=
  hitLoop rsqr hit_pt dsp_hits ((10 : ℚ) ^ 10) none

/-- Result of `EditableLine.process_hit_location`: either an edge hit,
reported as the two data points `xdata[h:h+2]`, `ydata[h:h+2]` and
marker `mkr = ""`, or a vertex hit, reported as the vertex data point
and marker `mkr = "s"`. -/
inductive HitResult
  | edge (xd yd : List ℚ) (mkr : String)
  | vertex (x y : ℚ) (mkr : String)
deriving DecidableEq, Repr

/-- Translation of `EditableLine.process_hit_location`.  The line data
is `xdata`, `ydata`; `transform` models `axes.transData.transform`;
`hit_list` is the index list from the toolkit's `contains`; `rsqr` is
the line's pick radius squared. -/
def process_hit_location (rsqr : ℚ) (transform : ℚ × ℚ → ℚ × ℚ)
    (xdata ydata : List ℚ) (ev : Event) (hit_list : List ℕ) : HitResult :=
  let line_hits := hit_list.map (fun i => (xdata.getD i 0, ydata.getD i 0))
  let dsp_hits := line_hits.map transform
  let hit_pt := (ev.x, ev.y)
  match hitScan rsqr hit_pt (hit_list.zip dsp_hits) with
  | none =>
    let h := hit_list.headD 0
    HitResult.edge ((xdata.drop h).take 2) ((ydata.drop h).take 2) ""
  | some v => HitResult.vertex (xdata.getD v 0) (ydata.getD v 0) "s"

/-- Diagram types `ht_dgm, slp_dgm = range(2)`. -/
inductive DgmType
  | ht_dgm
  | slp_dgm
deriving DecidableEq, Repr

/-- Python slice with a start index and an optional stop (the two
slices used are `slice(1, None)` and `slice(0, -1)`). -/
structure PySlice where
  start : ℕ
  stop : Option ℤ
deriving DecidableEq, Repr

/-- Evaluation of a Python slice `l[start:stop]` on a list: a negative
stop counts from the end. -/
def PySlice.applyTo (sl : PySlice) (l : List ℚ) : List ℚ :=
  match sl.stop with
  | none => l.drop sl.start
  | some z =>
    if z < 0 then ((l.take (l.length - (-z).toNat)).drop sl.start)
    else ((l.take z.toNat).drop sl.start)

/-- Which of the two paraxial transfer functions
(`pd.ht_to_slope` / `pd.slope_to_ht`) the figure applies on release. -/
inductive ApplyFn
  | ht_to_slope
  | slope_to_ht
deriving DecidableEq, Repr

/-- Per-diagram-type configuration chosen by
`ParaxialDesignFigure.setup_dgm_type`. -/
structure DgmSetup where
  data_slice : PySlice
  apply_fn : ApplyFn
  x_label : String
  y_label : String
deriving DecidableEq, Repr

/-- Translation of `ParaxialDesignFigure.setup_dgm_type`. -/
def setup_dgm_type : DgmType → DgmSetup
  | DgmType.ht_dgm => ⟨⟨1, none⟩, ApplyFn.ht_to_slope, "ybar", "y"⟩
  | DgmType.slp_dgm => ⟨⟨0, some (-1)⟩, ApplyFn.slope_to_ht, "wbar", "w"⟩

/-- State of a `ParaxialDesignFigure`, over an abstract sequential
model type `σ`: the two lens rows `lens[pr][type_sel]` and
`lens[ax][type_sel]`, the sequential model, the stored vertex, and a
count of `refresh_gui` calls. -/
structure ParaxFig (σ : Type) where
  lens_pr : List ℚ
  lens_ax : List ℚ
  seq : σ
  vertex : Option ℕ
  refresh_count : ℕ
deriving DecidableEq, Repr

/-- Python truthiness of the stored vertex (`if self.vertex:`): false
for `None` and for the integer `0`. -/
def vertexTruthy : Option ℕ → Bool
  | none => false
  | some v => decide (v ≠ 0)

/-- Translation of `ParaxialDesignFigure.on_press`.  The toolkit's
`line.contains(event)` result is the pair `contains`, `hit_list`;
`transform` models `ax.transData.transform` and `rsqr` the line's pick
radius squared.  On a vertex hit the stored vertex becomes
`hit_vertex + data_slice.start`. -/
def paraxOnPress {σ : Type} (t : DgmType) (rsqr : ℚ)
    (transform : ℚ × ℚ → ℚ × ℚ) (contains : Bool) (hit_list : List ℕ)
    (ev : Event) (s : ParaxFig σ) : ParaxFig σ :=
  if contains then
    let x_data := (setup_dgm_type t).data_slice.applyTo s.lens_pr
    let y_data := (setup_dgm_type t).data_slice.applyTo s.lens_ax
    let line_hits := hit_list.map (fun i => (x_data.getD i 0, y_data.getD i 0))
    let dsp_hits := line_hits.map transform
    match hitScan rsqr (ev.x, ev.y) (hit_list.zip dsp_hits) with
    | none => s
    | some hit_vertex =>
      { s with vertex := some (hit_vertex + (setup_dgm_type t).data_slice.start) }
  else s

/-- Body of the truthy branch of `ParaxialDesignFigure.on_release`:
write the event's data coordinates into the lens rows at the stored
vertex, apply the diagram type's transfer function with the optical
invariant, propagate to the sequential model, refresh the GUI, and
clear the stored vertex.  `interp` interprets the abstract transfer
functions and `lensToSeq` models `seq_model.paraxial_lens_to_seq_model`. -/
def releaseEdit {σ : Type} (t : DgmType)
    (interp : ApplyFn → List ℚ → List ℚ → ℕ → ℚ → List ℚ × List ℚ)
    (lensToSeq : List ℚ → List ℚ → σ) (optInv : σ → ℚ) (ev : Event)
    (s : ParaxFig σ) (v : ℕ) : ParaxFig σ :=
  let pr1 := s.lens_pr.set v ev.xdata
  let ax1 := s.lens_ax.set v ev.ydata
  let opt_inv := optInv s.seq
  let applied := interp (setup_dgm_type t).apply_fn pr1 ax1 v opt_inv
  { lens_pr := applied.1
    lens_ax := applied.2
    seq := lensToSeq applied.1 applied.2
    vertex := none
    refresh_count := s.refresh_count + 1 }

/-- Translation of `ParaxialDesignFigure.on_release`: the edit runs
under `if self.vertex:`, i.e. only when the stored vertex is truthy.
The optical invariant is read from the stored sequential model
(`self.seq_model.optical_spec.parax_data[2].opt_inv`, modelled by the
projection `optInv`). -/
def paraxOnRelease {σ : Type} (t : DgmType)
    (interp : ApplyFn → List ℚ → List ℚ → ℕ → ℚ → List ℚ × List ℚ)
    (lensToSeq : List ℚ → List ℚ → σ) (optInv : σ → ℚ) (ev : Event)
    (s : ParaxFig σ) : ParaxFig σ :=
  match s.vertex with
  | none => s
  | some v =>
    if v ≠ 0 then releaseEdit t interp lensToSeq optInv ev s v
    else s

/-!
Model of `InteractiveFigure` (`src/rayoptics/mpl/interactivefigure.py`).
-/

/-- View bounding box `[[x0, y0], [x1, y1]]`. -/
structure Bbox where
  x0 : ℚ
  y0 : ℚ
  x1 : ℚ
  y1 : ℚ
deriving DecidableEq, Repr

/-- View-related state of an `InteractiveFigure`: the stored
`view_bbox`, the axes limits, the `do_scale_bounds` flag and the
system bounding box consumed by `plot` when that flag is set. -/
structure ViewState where
  view_bbox : Bbox
  xlim : ℚ × ℚ
  ylim : ℚ × ℚ
  do_scale_bounds : Bool
  sys_bbox : Bbox
deriving DecidableEq, Repr

/-- Translation of `InteractiveFigure.update_axis_limits`. -/
def update_axis_limits (s : ViewState) (bbox : Bbox) : ViewState :=
  { s with xlim := (bbox.x0, bbox.x1), ylim := (bbox.y0, bbox.y1) }

/-- Translation of `InteractiveFigure.set_view_bbox`: store the box and
apply it as the axis limits. -/
def set_view_bbox (s : ViewState) (bbox : Bbox) : ViewState :=
  update_axis_limits { s with view_bbox := bbox } bbox

/-- Effect of `InteractiveFigure.plot` on the view state: when
`do_scale_bounds` is set the view box is recomputed from the system
bounding box by `util.scale_bounds` (modelled by the parameter
`scale_bounds`, a function external to the extracted sources), and the
current view box is applied as the axis limits. -/
def plotView (scale_bounds : Bbox → ℚ → Bbox) (oversize_factor : ℚ)
    (s : ViewState) : ViewState :=
  let s1 := if s.do_scale_bounds then
      { s with view_bbox := scale_bounds s.sys_bbox oversize_factor }
    else s
  update_axis_limits s1 s1.view_bbox

/-- Translation of `InteractiveFigure.zoom`: rebuild the view box from
its center and factor-scaled half-widths, store it, and re-plot. -/
def zoom (scale_bounds : Bbox → ℚ → Bbox) (oversize_factor : ℚ)
    (factor : ℚ) (s : ViewState) : ViewState :=
  let bbox := s.view_bbox
  let hlf_x := (bbox.x1 - bbox.x0) / 2
  let hlf_y := (bbox.y1 - bbox.y0) / 2
  let cen_x := (bbox.x1 + bbox.x0) / 2
  let cen_y := (bbox.y1 + bbox.y0) / 2
  let hlf_x2 := hlf_x * factor
  let hlf_y2 := hlf_y * factor
  let view_bbox : Bbox :=
    ⟨cen_x - hlf_x2, cen_y - hlf_y2, cen_x + hlf_x2, cen_y + hlf_y2⟩
  plotView scale_bounds oversize_factor (set_view_bbox s view_bbox)

/-- Translation of `InteractiveFigure.zoom_in` (`factor=0.8`). -/
def zoom_in (scale_bounds : Bbox → ℚ → Bbox) (oversize_factor : ℚ)
    (s : ViewState) : ViewState :=
  zoom scale_bounds oversize_factor (8 / 10) s

/-- Translation of `InteractiveFigure.zoom_out` (`factor=1.2`). -/
def zoom_out (scale_bounds : Bbox → ℚ → Bbox) (oversize_factor : ℚ)
    (s : ViewState) : ViewState :=
  zoom scale_bounds oversize_factor (12 / 10) s

/-!
Artist styles and the highlight / unhighlight closures installed by
`create_polygon`, `create_polyline` and `create_vertex`.  RGBA colors
are rational 4-tuples for polygons; polyline and vertex colors are
toolkit color names, modelled as strings.
-/

/-- RGBA color. -/
abbrev Rgba : Type := ℚ × ℚ × ℚ × ℚ

/-- Style state of a polygon patch: facecolor, edgecolor, linewidth,
and the saved `unhilite` attribute. -/
structure PolygonArtist where
  fc : Rgba
  ec : Rgba
  lw : ℚ
  unhilite : Option (Rgba × Rgba × ℚ)
deriving DecidableEq, Repr

/-- Highlight closure installed by `create_polygon`: save the current
style in `unhilite` and bump the facecolor alpha by 0.5, wrapping
above 1.0. -/
def polygon_highlight (p : PolygonArtist) : PolygonArtist :=
  let fc := p.fc
  let alpha0 := fc.2.2.2 + 1 / 2
  let alpha := if alpha0 > 1 then alpha0 - 1 else alpha0
  { p with unhilite := some (p.fc, p.ec, p.lw)
           fc := (fc.1, fc.2.1, fc.2.2.1, alpha) }

/-- Unhighlight closure installed by `create_polygon`: restore the
saved style and clear `unhilite`.  Unpacking `p.unhilite` raises in
Python when nothing was saved, modelled by `Option`. -/
def polygon_unhighlight (p : PolygonArtist) : Option PolygonArtist :=
  p.unhilite.map (fun sty =>
    { fc := sty.1, ec := sty.2.1, lw := sty.2.2, unhilite := none })

/-- Translation of `InteractiveFigure.create_polygon`: the patch is
built with the given fill color as facecolor, black edgecolor, and the
figure's default linewidth unless one is passed. -/
def create_polygon (fill_color : Rgba) (linewidth : ℚ) : PolygonArtist :=
  { fc := fill_color, ec := (0, 0, 0, 1), lw := linewidth, unhilite := none }

/-- Style state of a `Line2D` artist made by `create_polyline` or
`create_vertex`: color, linewidth, the captured hilite color, the data
points, and the saved `unhilite` attribute. -/
structure LineArtist where
  color : String
  lw : ℚ
  hilite_color : String
  xdata : List ℚ
  ydata : List ℚ
  unhilite : Option (String × ℚ)
deriving DecidableEq, Repr

/-- Highlight closure installed by `create_polyline`: save `(color,
linewidth)`, then set linewidth 2 and the captured hilite color. -/
def polyline_highlight (p : LineArtist) : LineArtist :=
  { p with unhilite := some (p.color, p.lw), lw := 2, color := p.hilite_color }

/-- Unhighlight closure installed by `create_polyline`: restore the
saved color and linewidth and clear `unhilite`. -/
def polyline_unhighlight (p : LineArtist) : Option LineArtist :=
  p.unhilite.map (fun sty =>
    { p with color := sty.1, lw := sty.2, unhilite := none })

/-- Highlight closure installed by `create_vertex` (same body as the
polyline one). -/
def vertex_highlight (p : LineArtist) : LineArtist :=
  { p with unhilite := some (p.color, p.lw), lw := 2, color := p.hilite_color }

/-- Unhighlight closure installed by `create_vertex`. -/
def vertex_unhighlight (p : LineArtist) : Option LineArtist :=
  p.unhilite.map (fun sty =>
    { p with color := sty.1, lw := sty.2, unhilite := none })

/-- Translation of `InteractiveFigure.create_polyline`: data is the
polyline's column-wise coordinates; `hilite` defaults to red. -/
def create_polyline (poly : List (ℚ × ℚ)) (color : String)
    (hilite : String) (linewidth : ℚ) : LineArtist :=
  { color := color, lw := linewidth, hilite_color := hilite
    xdata := poly.map Prod.fst, ydata := poly.map Prod.snd, unhilite := none }

/-- Translation of `InteractiveFigure.create_vertex`: a single data
point. -/
def create_vertex (vertex : ℚ × ℚ) (color : String) (hilite : String)
    (linewidth : ℚ) : LineArtist :=
  { color := color, lw := linewidth, hilite_color := hilite
    xdata := [vertex.1], ydata := [vertex.2], unhilite := none }

/-!
Press / motion / release controller of `InteractiveFigure`.  Artists
are identified by an id (modelling Python object identity); their
being in the highlighted style, established in general by the artist's
`highlight` closure and undone by `unhighlight`, is abstracted to a
boolean flag.  The toolkit's geometric `artist.contains(event)` test is
the parameter `contains`, keyed by artist id; `do_shape_action` defers
to the shapes' own action tables, which edit the optical model and are
outside this module, so it does not touch the controller state.
-/

/-- Controller view of an artist: identity, zorder, whether a `shape`
attribute was attached by `update_patches`, and whether its highlight
style is currently applied. -/
structure Artist where
  id : ℕ
  zorder : ℚ
  hasShape : Bool
  hilitedFlag : Bool
deriving DecidableEq, Repr

/-- Translation of the `SelectInfo` named tuple: an artist together
with the `info` detail (the `ind` hit indices) from `contains`. -/
structure SelectInfo where
  artist : Artist
  info : List ℕ
deriving DecidableEq, Repr

/-- Controller state of an `InteractiveFigure`: the axes children, the
hilited and selected `SelectInfo`, and the `do_scale_bounds` flag with
its saved copy across a press / release cycle. -/
structure CtrlState where
  children : List Artist
  hilited : Option SelectInfo
  selected : Option SelectInfo
  do_scale_bounds : Bool
  save_do_scale_bounds : Bool
deriving DecidableEq, Repr

/-- Descending-zorder order used by `find_artists_at_location`
(`sorted(..., key=lambda a: a.artist.get_zorder(), reverse=True)`). -/
def zDesc (a b : SelectInfo) : Prop := b.artist.zorder ≤ a.artist.zorder

instance : DecidableRel zDesc := fun a b =>
  inferInstanceAs (Decidable (b.artist.zorder ≤ a.artist.zorder))

instance : IsTotal SelectInfo zDesc :=
  ⟨fun a b => le_total b.artist.zorder a.artist.zorder⟩

instance : IsTrans SelectInfo zDesc :=
  ⟨fun _ _ _ h1 h2 => le_trans h2 h1⟩

/-- Translation of `InteractiveFigure.find_artists_at_location`:
collect the children that carry a `shape` attribute and contain the
event, then stable-sort them by zorder in descending order. -/
def find_artists_at_location (contains : ℕ → Event → Bool × List ℕ)
    (ev : Event) (s : CtrlState) : List SelectInfo :=
  let artists := s.children.filterMap (fun a =>
    if a.hasShape then
      let c := contains a.id ev
      if c.1 then some ⟨a, c.2⟩ else none
    else none)
  artists.insertionSort zDesc

/-- Application of an artist's highlight (`b = true`) or unhighlight
(`b = false`) closure to the identified child. -/
def setFlag (children : List Artist) (i : ℕ) (b : Bool) : List Artist :=
  children.map (fun a => if a.id = i then { a with hilitedFlag := b } else a)

/-- Translation of `InteractiveFigure.on_press`: save and clear
`do_scale_bounds` and select the currently hilited artist. -/
def ctrlOnPress (s : CtrlState) : CtrlState :=
  { s with save_do_scale_bounds := s.do_scale_bounds
           do_scale_bounds := false
           selected := s.hilited }

/-- Unhighlight step of `on_motion`'s hilite change (`if self.hilited:
self.hilited.artist.unhighlight(...)`). -/
def unhilitePrev (s : CtrlState) : CtrlState :=
  match s.hilited with
  | some h => { s with children := setFlag s.children h.artist.id false }
  | none => s

/-- Highlight step of `on_motion`'s hilite change (`if next_hilited:
next_hilited.artist.highlight(...)`). -/
def hiliteNext (next_hilited : Option SelectInfo) (s : CtrlState) : CtrlState :=
  match next_hilited with
  | some nh => { s with children := setFlag s.children nh.artist.id true }
  | none => s

/-- Translation of `InteractiveFigure.on_motion`.  With nothing
selected, the cursor's topmost hit becomes the new hilited artist:
when it differs (object identity, modelled by id) from the current
one, the old artist is unhighlighted, the new one highlighted, and
`self.hilited` updated.  With a selection the event is a drag handed
to the shape's action. -/
def ctrlOnMotion (contains : ℕ → Event → Bool × List ℕ) (ev : Event)
    (s : CtrlState) : CtrlState :=
  match s.selected with
  | some _ => s
  | none =>
    let next_hilited := (find_artists_at_location contains ev s).head?
    if Option.map (fun h : SelectInfo => h.artist.id) next_hilited ≠
        Option.map (fun h : SelectInfo => h.artist.id) s.hilited then
      { hiliteNext next_hilited (unhilitePrev s) with hilited := next_hilited }
    else s

/-- Translation of `InteractiveFigure.on_release`: restore
`do_scale_bounds` and clear the selection. -/
def ctrlOnRelease (s : CtrlState) : CtrlState :=
  { s with do_scale_bounds := s.save_do_scale_bounds
           selected := none }

/-- A mouse event dispatched to the controller. -/
inductive UIEvent
  | press (ev : Event)
  | motion (ev : Event)
  | release (ev : Event)
deriving DecidableEq, Repr

/-- Event dispatch, as wired by `connect_events`. -/
def ctrlStep (contains : ℕ → Event → Bool × List ℕ) (s : CtrlState) :
    UIEvent → CtrlState
  | UIEvent.press _ => ctrlOnPress s
  | UIEvent.motion ev => ctrlOnMotion contains ev s
  | UIEvent.release _ => ctrlOnRelease s

/-- Run of a sequence of mouse events from a state. -/
def ctrlRun (contains : ℕ → Event → Bool × List ℕ) (s : CtrlState)
    (evs : List UIEvent) : CtrlState :=
  evs.foldl (ctrlStep contains) s

/-- Initial controller state after `plot`: artists are created
unhighlighted, ids enumerate the distinct artist objects, and nothing
is hilited or selected. -/
def initCtrl (specs : List (ℚ × Bool)) (dsb : Bool) : CtrlState :=
  { children := specs.enum.map (fun p => ⟨p.1, p.2.1, p.2.2, false⟩)
    hilited := none
    selected := none
    do_scale_bounds := dsb
    save_do_scale_bounds := dsb }

/-!
Pan and zoom-box actions.
-/

/-- Axes state touched by the toolkit's pan machinery: the x and y
limits (possibly inverted). -/
structure AxesState where
  xlo : ℚ
  xhi : ℚ
  ylo : ℚ
  yhi : ℚ
deriving DecidableEq, Repr

/-- Matplotlib's `Axes.get_xbound`: the x limits in increasing order. -/
def get_xbound (a : AxesState) : ℚ × ℚ := (min a.xlo a.xhi, max a.xlo a.xhi)

/-- Matplotlib's `Axes.get_ybound`: the y limits in increasing order. -/
def get_ybound (a : AxesState) : ℚ × ℚ := (min a.ylo a.yhi, max a.ylo a.yhi)

/-- Toolkit side of the pan gesture, external to the repository:
`start_pan`, `drag_pan` and `end_pan` transform the axes state. -/
structure PanToolkit where
  start_pan : ℚ → ℚ → ℕ → AxesState → AxesState
  drag_pan : ℕ → Option String → ℚ → ℚ → AxesState → AxesState
  end_pan : AxesState → AxesState

/-- Figure state touched by `PanAction`. -/
structure PanFig where
  ax : AxesState
  view_bbox : Bbox
  button_pressed : ℕ
deriving DecidableEq, Repr

/-- Translation of `PanAction`'s press handler. -/
def pan_on_press (tk : PanToolkit) (ev : Event) (s : PanFig) : PanFig :=
  { s with button_pressed := ev.button
           ax := tk.start_pan ev.x ev.y ev.button s.ax }

/-- Translation of `PanAction`'s drag handler. -/
def pan_on_drag (tk : PanToolkit) (ev : Event) (s : PanFig) : PanFig :=
  { s with ax := tk.drag_pan s.button_pressed ev.key ev.x ev.y s.ax }

/-- Translation of `PanAction`'s release handler: end the pan and store
the resulting axes bounds as the figure's `view_bbox`. -/
def pan_on_release (tk : PanToolkit) (_ev : Event) (s : PanFig) : PanFig :=
  let ax1 := tk.end_pan s.ax
  let xb := get_xbound ax1
  let yb := get_ybound ax1
  { s with ax := ax1, view_bbox := ⟨xb.1, yb.1, xb.2, yb.2⟩ }

/-- A full pan gesture: press, any number of drags, release. -/
def pan_gesture (tk : PanToolkit) (press_ev : Event) (drags : List Event)
    (release_ev : Event) (s : PanFig) : PanFig :=
  pan_on_release tk release_ev
    (drags.foldl (fun st ev => pan_on_drag tk ev st) (pan_on_press tk press_ev s))

/-!
Event connection bookkeeping (`connect_events` / `disconnect_events`)
and `ZoomBoxAction`, over an abstract handler type.
-/

/-- Figure state touched by event connection: the event-name-to-handler
dict, the stored canvas callback ids, and the canvas's next id. -/
structure EventFig (η : Type) where
  event_dict : List (String × η)
  callback_ids : Option (List ℕ)
  next_cid : ℕ
deriving DecidableEq, Repr

/-- Python dict assignment `d[k] = v` on an association list. -/
def dictInsert {η : Type} (d : List (String × η)) (k : String) (v : η) :
    List (String × η) :=
  if d.any (fun p => p.1 = k) then
    d.map (fun p => if p.1 = k then (k, v) else p)
  else d ++ [(k, v)]

/-- One iteration of the `connect_events` loop: record the handler in
`event_dict`, connect it to the canvas (modelled by consuming the next
callback id), and append the id to `callback_ids`. -/
def connectStep {η : Type} (st : EventFig η) (p : String × η) : EventFig η :=
  { event_dict := dictInsert st.event_dict p.1 p.2
    callback_ids := some ((st.callback_ids.getD []) ++ [st.next_cid])
    next_cid := st.next_cid + 1 }

/-- Translation of `InteractiveFigure.connect_events` on an explicit
action dict: reset `callback_ids`, then for each pair record it in
`event_dict` and connect it to the canvas, collecting the callback id. -/
def connect_events {η : Type} (action_dict : List (String × η))
    (s : EventFig η) : EventFig η :=
  action_dict.foldl connectStep { s with callback_ids := some [] }

/-- Translation of `InteractiveFigure.disconnect_events`: disconnect
the stored callbacks, clear them, swap the event dict with an empty one
and return the old dict. -/
def disconnect_events {η : Type} (s : EventFig η) :
    List (String × η) × EventFig η :=
  (s.event_dict, { s with callback_ids := none, event_dict := [] })

/-- Figure state touched by `ZoomBoxAction`: view state plus event
connections. -/
structure ZoomFig (η : Type) where
  view : ViewState
  events : EventFig η
deriving DecidableEq, Repr

/-- Construction of `ZoomBoxAction`: the figure's events are
disconnected and the returned mapping saved. -/
def zoom_box_init {η : Type} (fig : ZoomFig η) :
    List (String × η) × ZoomFig η :=
  let d := disconnect_events fig.events
  (d.1, { fig with events := d.2 })

/-- Release handler of `ZoomBoxAction`: set the view box from the
rubber-box corners and reconnect the saved events. -/
def zoom_box_on_release {η : Type} (saved_events : List (String × η))
    (press_event release_event : Event) (fig : ZoomFig η) : ZoomFig η :=
  { view := set_view_bbox fig.view
      ⟨press_event.xdata, press_event.ydata,
       release_event.xdata, release_event.ydata⟩
    events := connect_events saved_events fig.events }

/-!
Correctness of the hit scan.
-/

/-- Squared display distance of a scanned pair to the cursor point. -/
def dOf (hit_pt : ℚ × ℚ) (p : ℕ × ℚ × ℚ) : ℚ :=
  distance_sqr_2d p.2 hit_pt

/-- Running minimum of the scanned distances, from an initial value. -/
def runMin (hit_pt : ℚ × ℚ) : List (ℕ × ℚ × ℚ) → ℚ → ℚ
  | [], m => m
  | p :: rest, m => runMin hit_pt rest (min m (dOf hit_pt p))

lemma runMin_le_init (hp : ℚ × ℚ) :
    ∀ (l : List (ℕ × ℚ × ℚ)) (m : ℚ), runMin hp l m ≤ m := by
  intro l
  induction l with
  | nil => intro m; exact le_refl m
  | cons p rest ih =>
    intro m
    exact le_trans (ih (min m (dOf hp p))) (min_le_left _ _)

lemma runMin_le_mem (hp : ℚ × ℚ) :
    ∀ (l : List (ℕ × ℚ × ℚ)) (m : ℚ) (p : ℕ × ℚ × ℚ), p ∈ l →
      runMin hp l m ≤ dOf hp p := by
  intro l
  induction l with
  | nil => intro m p hmem; exact absurd hmem (List.not_mem_nil p)
  | cons q rest ih =>
    intro m p hmem
    rcases List.mem_cons.mp hmem with heq | hrest
    · subst heq
      exact le_trans (runMin_le_init hp rest (min m (dOf hp p)))
        (min_le_right _ _)
    · exact ih (min m (dOf hp q)) p hrest

lemma runMin_cases (hp : ℚ × ℚ) :
    ∀ (l : List (ℕ × ℚ × ℚ)) (m : ℚ),
      runMin hp l m = m ∨ ∃ p ∈ l, runMin hp l m = dOf hp p := by
  intro l
  induction l with
  | nil => intro m; exact Or.inl rfl
  | cons q rest ih =>
    intro m
    rcases ih (min m (dOf hp q)) with hcase | ⟨p, hmem, hval⟩
    · rcases min_cases m (dOf hp q) with ⟨hmin, _⟩ | ⟨hmin, _⟩
      · exact Or.inl (by rw [runMin, hcase, hmin])
      · exact Or.inr ⟨q, List.mem_cons_self _ _, by rw [runMin, hcase, hmin]⟩
    · exact Or.inr ⟨p, List.mem_cons_of_mem _ hmem, hval⟩

/-- Invariant-carrying specification of the scan loop.  `A i q` is the
relation "index `i` is a scanned candidate at squared distance `q`";
given that the incoming state is sound, the final state is: the result
is `none` when the final running minimum is at least the pick radius
squared, and otherwise some candidate realising the final minimum. -/
lemma hitLoop_spec (rsqr : ℚ) (hp : ℚ × ℚ) (A : ℕ → ℚ → Prop) :
    ∀ (l : List (ℕ × ℚ × ℚ)) (m : ℚ) (hv : Option ℕ),
      (∀ p ∈ l, A p.1 (dOf hp p)) →
      (rsqr ≤ m → hv = none) →
      (m < rsqr → ∃ i, hv = some i ∧ A i m) →
      (rsqr ≤ runMin hp l m → hitLoop rsqr hp l m hv = none) ∧
      (runMin hp l m < rsqr →
        ∃ i, hitLoop rsqr hp l m hv = some i ∧ A i (runMin hp l m)) := by
  intro l
  induction l with
  | nil =>
    intro m hv _ g1 g2
    exact ⟨g1, g2⟩
  | cons p rest ih =>
    intro m hv cover g1 g2
    obtain ⟨idx, pt⟩ := p
    have hd : dOf hp (idx, pt) = distance_sqr_2d pt hp := rfl
    by_cases hlt : distance_sqr_2d pt hp < m
    · have hloop : hitLoop rsqr hp ((idx, pt) :: rest) m hv =
          hitLoop rsqr hp rest (distance_sqr_2d pt hp)
            (if distance_sqr_2d pt hp < rsqr then some idx else hv) := by
        simp only [hitLoop, if_pos hlt]
      have hmin : runMin hp ((idx, pt) :: rest) m =
          runMin hp rest (distance_sqr_2d pt hp) := by
        rw [runMin, hd, min_eq_right (le_of_lt hlt)]
      rw [hloop, hmin]
      refine ih (distance_sqr_2d pt hp) _ ?_ ?_ ?_
      · intro q hq
        exact cover q (List.mem_cons_of_mem _ hq)
      · intro hge
        rw [if_neg (not_lt.mpr hge)]
        exact g1 (le_of_lt (lt_of_le_of_lt hge hlt))
      · intro hlt2
        refine ⟨idx, ?_, ?_⟩
        · rw [if_pos hlt2]
        · have := cover (idx, pt) (List.mem_cons_self _ _)
          rwa [hd] at this
    · have hloop : hitLoop rsqr hp ((idx, pt) :: rest) m hv =
          hitLoop rsqr hp rest m hv := by
        simp only [hitLoop, if_neg hlt]
      have hmin : runMin hp ((idx, pt) :: rest) m = runMin hp rest m := by
        rw [runMin, hd, min_eq_left (not_lt.mp hlt)]
      rw [hloop, hmin]
      refine ih m hv ?_ g1 g2
      intro q hq
      exact cover q (List.mem_cons_of_mem _ hq)

lemma zip_map_self (l : List ℕ) (f : ℕ → ℚ × ℚ) :
    l.zip (l.map f) = l.map (fun a => (a, f a)) := by
  induction l with
  | nil => rfl
  | cons a rest ih => simp [List.zip_cons_cons, ih]

/-- Squared display-pixel distance of line vertex `i` to the cursor. -/
def pixDist (transform : ℚ × ℚ → ℚ × ℚ) (xdata ydata : List ℚ)
    (ev : Event) (i : ℕ) : ℚ :=
  distance_sqr_2d (transform (xdata.getD i 0, ydata.getD i 0)) (ev.x, ev.y)

/-- The hit scan exactly as `process_hit_location` and
`ParaxialDesignFigure.on_press` invoke it, on the line data, the axes
transform, and the `contains` hit list. -/
def lineHitScan (rsqr : ℚ) (transform : ℚ × ℚ → ℚ × ℚ)
    (xdata ydata : List ℚ) (ev : Event) (hit_list : List ℕ) : Option ℕ :=
  hitScan rsqr (ev.x, ev.y)
    (hit_list.zip
      ((hit_list.map (fun i => (xdata.getD i 0, ydata.getD i 0))).map transform))

lemma process_hit_location_eq (rsqr : ℚ) (transform : ℚ × ℚ → ℚ × ℚ)
    (xdata ydata : List ℚ) (ev : Event) (hit_list : List ℕ) :
    process_hit_location rsqr transform xdata ydata ev hit_list =
      match lineHitScan rsqr transform xdata ydata ev hit_list with
      | none =>
        HitResult.edge ((xdata.drop (hit_list.headD 0)).take 2)
          ((ydata.drop (hit_list.headD 0)).take 2) ""
      | some v => HitResult.vertex (xdata.getD v 0) (ydata.getD v 0) "s" := rfl

/-- Main characterisation of the scan used by both hit tests: it
returns a vertex within the pick radius realising the minimum scanned
distance, and `none` exactly when no candidate is within the radius. -/
lemma lineHitScan_spec (rsqr : ℚ) (transform : ℚ × ℚ → ℚ × ℚ)
    (xdata ydata : List ℚ) (ev : Event) (hit_list : List ℕ)
    (hr : rsqr ≤ 10 ^ 10) :
    (∀ v, lineHitScan rsqr transform xdata ydata ev hit_list = some v →
      v ∈ hit_list ∧ pixDist transform xdata ydata ev v < rsqr ∧
      ∀ j ∈ hit_list,
        pixDist transform xdata ydata ev v ≤ pixDist transform xdata ydata ev j) ∧
    (lineHitScan rsqr transform xdata ydata ev hit_list = none ↔
      ∀ j ∈ hit_list, rsqr ≤ pixDist transform xdata ydata ev j) := by
  set g : ℕ → ℚ × ℚ :=
    fun i => transform (xdata.getD i 0, ydata.getD i 0) with hg
  have hzl : hit_list.zip
      ((hit_list.map (fun i => (xdata.getD i 0, ydata.getD i 0))).map transform) =
      hit_list.map (fun a => (a, g a)) := by
    rw [List.map_map, zip_map_self]
    rfl
  have hdOf : ∀ a : ℕ, dOf (ev.x, ev.y) (a, g a) =
      pixDist transform xdata ydata ev a := by
    intro a
    rfl
  have hspec := hitLoop_spec rsqr (ev.x, ev.y)
    (fun i q => i ∈ hit_list ∧ q = pixDist transform xdata ydata ev i)
    (hit_list.map (fun a => (a, g a))) ((10 : ℚ) ^ 10) none
    (by
      intro p hp
      rcases List.mem_map.mp hp with ⟨a, ha, rfl⟩
      exact ⟨ha, (hdOf a).symm⟩)
    (fun _ => rfl)
    (fun hlt => absurd hr (not_le.mpr hlt))
  have hscan : lineHitScan rsqr transform xdata ydata ev hit_list =
      hitLoop rsqr (ev.x, ev.y) (hit_list.map (fun a => (a, g a)))
        ((10 : ℚ) ^ 10) none := by
    rw [lineHitScan, hitScan, hzl]
  set M := runMin (ev.x, ev.y) (hit_list.map (fun a => (a, g a)))
    ((10 : ℚ) ^ 10) with hM
  constructor
  · intro v hv
    have hMlt : M < rsqr := by
      by_contra hcon
      have := hspec.1 (not_lt.mp hcon)
      rw [hscan] at hv
      rw [this] at hv
      exact Option.noConfusion hv
    obtain ⟨i, hi, himem, hival⟩ := hspec.2 hMlt
    rw [hscan] at hv
    rw [hv] at hi
    obtain rfl : v = i := Option.some.inj hi
    refine ⟨himem, by rw [← hival]; exact hMlt, ?_⟩
    intro j hj
    rw [← hival]
    have : (j, g j) ∈ hit_list.map (fun a => (a, g a)) :=
      List.mem_map.mpr ⟨j, hj, rfl⟩
    have hle := runMin_le_mem (ev.x, ev.y) _ ((10 : ℚ) ^ 10) (j, g j) this
    rw [hdOf j] at hle
    exact hle
  · constructor
    · intro hnone j hj
      by_contra hcon
      have hjd : pixDist transform xdata ydata ev j < rsqr := not_le.mp hcon
      have hmem : (j, g j) ∈ hit_list.map (fun a => (a, g a)) :=
        List.mem_map.mpr ⟨j, hj, rfl⟩
      have hle := runMin_le_mem (ev.x, ev.y) _ ((10 : ℚ) ^ 10) (j, g j) hmem
      rw [hdOf j] at hle
      have hMlt : M < rsqr := lt_of_le_of_lt hle hjd
      obtain ⟨i, hi, _⟩ := hspec.2 hMlt
      rw [hscan] at hnone
      rw [hnone] at hi
      exact Option.noConfusion hi
    · intro hall
      have hMge : rsqr ≤ M := by
        rcases runMin_cases (ev.x, ev.y)
          (hit_list.map (fun a => (a, g a))) ((10 : ℚ) ^ 10) with hc | ⟨p, hp, hc⟩
        · rw [← hM] at hc
          rw [hc]
          exact hr
        · rcases List.mem_map.mp hp with ⟨a, ha, rfl⟩
          rw [← hM] at hc
          rw [hc, hdOf a]
          exact hall a ha
      rw [hscan]
      exact hspec.1 hMge

lemma paraxOnPress_true {σ : Type} (t : DgmType) (rsqr : ℚ)
    (transform : ℚ × ℚ → ℚ × ℚ) (hit_list : List ℕ) (ev : Event)
    (s : ParaxFig σ) :
    paraxOnPress t rsqr transform true hit_list ev s =
      match lineHitScan rsqr transform
          ((setup_dgm_type t).data_slice.applyTo s.lens_pr)
          ((setup_dgm_type t).data_slice.applyTo s.lens_ax) ev hit_list with
      | none => s
      | some hv =>
        { s with vertex := some (hv + (setup_dgm_type t).data_slice.start) } :=
  rfl

/-- C1: on a button-press or motion event whose cursor position is
contained by the plotted line, the hit test selects the contains-hit
vertex of minimal squared display-pixel distance to the cursor, and
only when that distance is strictly below the pick radius squared;
with no candidate inside the pick radius no vertex is selected and an
edge is reported (`process_hit_location` returns the edge slice with
an empty marker, and `on_press` stores no vertex). -/
theorem claim_C1 (rsqr : ℚ) (transform : ℚ × ℚ → ℚ × ℚ)
    (xdata ydata : List ℚ) (ev : Event) (hit_list : List ℕ)
    (hr : rsqr ≤ 10 ^ 10) :
    (∀ v, lineHitScan rsqr transform xdata ydata ev hit_list = some v →
      v ∈ hit_list ∧ pixDist transform xdata ydata ev v < rsqr ∧
      (∀ j ∈ hit_list, pixDist transform xdata ydata ev v ≤
        pixDist transform xdata ydata ev j) ∧
      process_hit_location rsqr transform xdata ydata ev hit_list =
        HitResult.vertex (xdata.getD v 0) (ydata.getD v 0) "s") ∧
    (lineHitScan rsqr transform xdata ydata ev hit_list = none ↔
      ∀ j ∈ hit_list, rsqr ≤ pixDist transform xdata ydata ev j) ∧
    (lineHitScan rsqr transform xdata ydata ev hit_list = none →
      process_hit_location rsqr transform xdata ydata ev hit_list =
        HitResult.edge ((xdata.drop (hit_list.headD 0)).take 2)
          ((ydata.drop (hit_list.headD 0)).take 2) "") ∧
    (∀ (σ : Type) (t : DgmType) (s : ParaxFig σ),
      (setup_dgm_type t).data_slice.applyTo s.lens_pr = xdata →
      (setup_dgm_type t).data_slice.applyTo s.lens_ax = ydata →
      (lineHitScan rsqr transform xdata ydata ev hit_list = none →
        paraxOnPress t rsqr transform true hit_list ev s = s) ∧
      (∀ v, lineHitScan rsqr transform xdata ydata ev hit_list = some v →
        paraxOnPress t rsqr transform true hit_list ev s =
          { s with vertex := some (v + (setup_dgm_type t).data_slice.start) })) := by
  obtain ⟨hsome, hnone⟩ :=
    lineHitScan_spec rsqr transform xdata ydata ev hit_list hr
  refine ⟨?_, hnone, ?_, ?_⟩
  · intro v hv
    obtain ⟨hmem, hlt, hmin⟩ := hsome v hv
    refine ⟨hmem, hlt, hmin, ?_⟩
    rw [process_hit_location_eq, hv]
  · intro hv
    rw [process_hit_location_eq, hv]
  · intro σ t s hx hy
    constructor
    · intro hv
      rw [paraxOnPress_true, hx, hy, hv]
    · intro v hv
      rw [paraxOnPress_true, hx, hy, hv]

/-- Witness for C1 at a concrete line and event: the cursor at display
point `(11, 1)` over the line through `(0,0)`, `(10,0)`, `(20,0)` with
pick radius 6 selects vertex 1, the nearest contains-hit. -/
theorem claim_C1_witness :
    lineHitScan 36 (fun p => p) [0, 10, 20] [0, 0, 0]
      ⟨11, 1, 0, 0, 1, none⟩ [0, 1] = some 1 ∧
    (1 : ℕ) ∈ [0, 1] ∧
    pixDist (fun p => p) [0, 10, 20] [0, 0, 0] ⟨11, 1, 0, 0, 1, none⟩ 1 < 36 ∧
    (∀ j ∈ [0, 1],
      pixDist (fun p => p) [0, 10, 20] [0, 0, 0] ⟨11, 1, 0, 0, 1, none⟩ 1 ≤
      pixDist (fun p => p) [0, 10, 20] [0, 0, 0] ⟨11, 1, 0, 0, 1, none⟩ j) ∧
    process_hit_location 36 (fun p => p) [0, 10, 20] [0, 0, 0]
      ⟨11, 1, 0, 0, 1, none⟩ [0, 1] = HitResult.vertex 10 0 "s" := by
  have hs : lineHitScan 36 (fun p => p) [0, 10, 20] [0, 0, 0]
      ⟨11, 1, 0, 0, 1, none⟩ [0, 1] = some 1 := by
    norm_num [lineHitScan, hitScan, hitLoop, distance_sqr_2d]
  have h := (claim_C1 36 (fun p => p) [0, 10, 20] [0, 0, 0]
      ⟨11, 1, 0, 0, 1, none⟩ [0, 1] (by norm_num)).1 1 hs
  exact ⟨hs, h.1, h.2.1, h.2.2.1, h.2.2.2.trans rfl⟩

/-- C2 (amended): for every release event following a press that
stored a nonzero vertex index, `on_release` writes the event's data
coordinates into the lens rows at that index, applies the diagram
type's transfer function with the vertex and the optical invariant
read from the sequential model, propagates the lens to the sequential
model, refreshes the GUI, and resets the stored vertex to `None`.  (As
stated over every selected vertex the claim fails: a stored index 0 is
falsy, see the counterexample.) -/
theorem claim_C2 (σ : Type) (t : DgmType)
    (interp : ApplyFn → List ℚ → List ℚ → ℕ → ℚ → List ℚ × List ℚ)
    (lensToSeq : List ℚ → List ℚ → σ) (optInv : σ → ℚ) (ev : Event)
    (s : ParaxFig σ) (v : ℕ) (hv : s.vertex = some v) (hnz : v ≠ 0) :
    paraxOnRelease t interp lensToSeq optInv ev s =
      { lens_pr := (interp (setup_dgm_type t).apply_fn
          (s.lens_pr.set v ev.xdata) (s.lens_ax.set v ev.ydata) v
          (optInv s.seq)).1
        lens_ax := (interp (setup_dgm_type t).apply_fn
          (s.lens_pr.set v ev.xdata) (s.lens_ax.set v ev.ydata) v
          (optInv s.seq)).2
        seq := lensToSeq
          (interp (setup_dgm_type t).apply_fn (s.lens_pr.set v ev.xdata)
            (s.lens_ax.set v ev.ydata) v (optInv s.seq)).1
          (interp (setup_dgm_type t).apply_fn (s.lens_pr.set v ev.xdata)
            (s.lens_ax.set v ev.ydata) v (optInv s.seq)).2
        vertex := none
        refresh_count := s.refresh_count + 1 } := by
  simp only [paraxOnRelease, hv, if_pos hnz]
  rfl

/-- Witness for C2 at a concrete state with stored vertex 1. -/
theorem claim_C2_witness :
    paraxOnRelease DgmType.ht_dgm (fun _ pr ax _ q => (pr.set 0 q, ax))
      (fun pr _ => pr.headD 0) (fun q => q) ⟨0, 0, 9, 8, 1, none⟩
      (⟨[1, 2, 3], [4, 5, 6], (7 : ℚ), some 1, 0⟩ : ParaxFig ℚ) =
      ⟨[7, 9, 3], [4, 8, 6], 7, none, 1⟩ := by
  rw [claim_C2 ℚ DgmType.ht_dgm (fun _ pr ax _ q => (pr.set 0 q, ax))
    (fun pr _ => pr.headD 0) (fun q => q) ⟨0, 0, 9, 8, 1, none⟩
    (⟨[1, 2, 3], [4, 5, 6], (7 : ℚ), some 1, 0⟩ : ParaxFig ℚ) 1 rfl
    (by decide)]
  rfl

/-- Counterexample to C2 as stated: in the slope diagram the press at
display point `(1, 4)` over the line `(1,4)-(2,5)` selects vertex 0
and stores index `0 + 0 = 0`; the following release applies no edit,
does not refresh, and leaves the stored vertex at 0 instead of
resetting it to `None`. -/
theorem claim_C2_counterexample :
    (paraxOnPress DgmType.slp_dgm 36 (fun p => p) true [0, 1]
        ⟨1, 4, 1, 4, 1, none⟩
        (⟨[1, 2, 3], [4, 5, 6], (7 : ℚ), none, 0⟩ : ParaxFig ℚ)).vertex =
      some 0 ∧
    paraxOnRelease DgmType.slp_dgm (fun _ pr ax _ q => (pr.set 0 q, ax))
      (fun pr _ => pr.headD 0) (fun q => q) ⟨0, 0, 9, 8, 1, none⟩
      (paraxOnPress DgmType.slp_dgm 36 (fun p => p) true [0, 1]
        ⟨1, 4, 1, 4, 1, none⟩
        (⟨[1, 2, 3], [4, 5, 6], (7 : ℚ), none, 0⟩ : ParaxFig ℚ)) =
      paraxOnPress DgmType.slp_dgm 36 (fun p => p) true [0, 1]
        ⟨1, 4, 1, 4, 1, none⟩
        (⟨[1, 2, 3], [4, 5, 6], (7 : ℚ), none, 0⟩ : ParaxFig ℚ) ∧
    (paraxOnPress DgmType.slp_dgm 36 (fun p => p) true [0, 1]
        ⟨1, 4, 1, 4, 1, none⟩
        (⟨[1, 2, 3], [4, 5, 6], (7 : ℚ), none, 0⟩ : ParaxFig ℚ)).refresh_count
      = 0 := by
  have hpress : paraxOnPress DgmType.slp_dgm 36 (fun p => p) true [0, 1]
      ⟨1, 4, 1, 4, 1, none⟩
      (⟨[1, 2, 3], [4, 5, 6], (7 : ℚ), none, 0⟩ : ParaxFig ℚ) =
      (⟨[1, 2, 3], [4, 5, 6], (7 : ℚ), some 0, 0⟩ : ParaxFig ℚ) := by
    norm_num [paraxOnPress, setup_dgm_type, PySlice.applyTo, hitScan, hitLoop,
      distance_sqr_2d]
  rw [hpress]
  exact ⟨rfl, rfl, rfl⟩

/-- C7: a press whose cursor is not over the line, or over the line
with no vertex inside the pick radius, stores no vertex, and the
following release leaves the lens data, the sequential model, the
stored vertex and the refresh count unchanged. -/
theorem claim_C7 (σ : Type) (t : DgmType) (rsqr : ℚ)
    (transform : ℚ × ℚ → ℚ × ℚ) (contains : Bool) (hit_list : List ℕ)
    (ev ev2 : Event)
    (interp : ApplyFn → List ℚ → List ℚ → ℕ → ℚ → List ℚ × List ℚ)
    (lensToSeq : List ℚ → List ℚ → σ) (optInv : σ → ℚ)
    (s : ParaxFig σ) (h0 : s.vertex = none)
    (hmiss : contains = false ∨
      lineHitScan rsqr transform
        ((setup_dgm_type t).data_slice.applyTo s.lens_pr)
        ((setup_dgm_type t).data_slice.applyTo s.lens_ax) ev hit_list = none) :
    paraxOnPress t rsqr transform contains hit_list ev s = s ∧
    paraxOnRelease t interp lensToSeq optInv ev2
      (paraxOnPress t rsqr transform contains hit_list ev s) = s := by
  have hpress : paraxOnPress t rsqr transform contains hit_list ev s = s := by
    rcases hmiss with hc | hscan
    · subst hc
      rfl
    · cases contains
      · rfl
      · rw [paraxOnPress_true, hscan]
  have hrel : paraxOnRelease t interp lensToSeq optInv ev2 s = s := by
    simp only [paraxOnRelease, h0]
  rw [hpress]
  exact ⟨rfl, hrel⟩

/-- Witness for C7: a press with `contains = false` on a concrete
figure, followed by a release, changes nothing. -/
theorem claim_C7_witness :
    paraxOnPress DgmType.ht_dgm 36 (fun p => p) false [0]
      ⟨5, 5, 5, 5, 1, none⟩
      (⟨[1, 2, 3], [4, 5, 6], (7 : ℚ), none, 0⟩ : ParaxFig ℚ) =
      (⟨[1, 2, 3], [4, 5, 6], (7 : ℚ), none, 0⟩ : ParaxFig ℚ) ∧
    paraxOnRelease DgmType.ht_dgm (fun _ pr ax _ q => (pr.set 0 q, ax))
      (fun pr _ => pr.headD 0) (fun q => q) ⟨0, 0, 9, 8, 1, none⟩
      (paraxOnPress DgmType.ht_dgm 36 (fun p => p) false [0]
        ⟨5, 5, 5, 5, 1, none⟩
        (⟨[1, 2, 3], [4, 5, 6], (7 : ℚ), none, 0⟩ : ParaxFig ℚ)) =
      (⟨[1, 2, 3], [4, 5, 6], (7 : ℚ), none, 0⟩ : ParaxFig ℚ) :=
  claim_C7 ℚ DgmType.ht_dgm 36 (fun p => p) false [0] ⟨5, 5, 5, 5, 1, none⟩
    ⟨0, 0, 9, 8, 1, none⟩ (fun _ pr ax _ q => (pr.set 0 q, ax))
    (fun pr _ => pr.headD 0) (fun q => q)
    (⟨[1, 2, 3], [4, 5, 6], (7 : ℚ), none, 0⟩ : ParaxFig ℚ) rfl (Or.inl rfl)

/-- C8: `on_release` applies the model edit exactly when the stored
vertex is truthy (non-`None` and nonzero); in the slope diagram the
data slice starts at index 0, a picked first vertex stores index 0,
and the release after that press applies no edit, does not refresh,
and leaves the stored vertex at 0. -/
theorem claim_C8 (σ : Type)
    (interp : ApplyFn → List ℚ → List ℚ → ℕ → ℚ → List ℚ × List ℚ)
    (lensToSeq : List ℚ → List ℚ → σ) (optInv : σ → ℚ) (rsqr : ℚ)
    (transform : ℚ × ℚ → ℚ × ℚ) (hit_list : List ℕ) (ev ev2 : Event)
    (s : ParaxFig σ)
    (hscan : lineHitScan rsqr transform
      ((setup_dgm_type DgmType.slp_dgm).data_slice.applyTo s.lens_pr)
      ((setup_dgm_type DgmType.slp_dgm).data_slice.applyTo s.lens_ax)
      ev hit_list = some 0) :
    (∀ (t : DgmType) (s2 : ParaxFig σ), vertexTruthy s2.vertex = false →
      paraxOnRelease t interp lensToSeq optInv ev2 s2 = s2) ∧
    (∀ (t : DgmType) (s2 : ParaxFig σ) (v : ℕ), s2.vertex = some v → v ≠ 0 →
      paraxOnRelease t interp lensToSeq optInv ev2 s2 =
        releaseEdit t interp lensToSeq optInv ev2 s2 v) ∧
    (setup_dgm_type DgmType.slp_dgm).data_slice.start = 0 ∧
    (paraxOnPress DgmType.slp_dgm rsqr transform true hit_list ev s).vertex =
      some 0 ∧
    paraxOnRelease DgmType.slp_dgm interp lensToSeq optInv ev2
      (paraxOnPress DgmType.slp_dgm rsqr transform true hit_list ev s) =
      paraxOnPress DgmType.slp_dgm rsqr transform true hit_list ev s ∧
    (paraxOnPress DgmType.slp_dgm rsqr transform true hit_list ev s).refresh_count
      = s.refresh_count := by
  have hpress : paraxOnPress DgmType.slp_dgm rsqr transform true hit_list ev s =
      { s with vertex := some 0 } := by
    rw [paraxOnPress_true, hscan]
    rfl
  refine ⟨?_, ?_, rfl, ?_, ?_, ?_⟩
  · intro t s2 hf
    cases hs2 : s2.vertex with
    | none => simp only [paraxOnRelease, hs2]
    | some v =>
      rw [hs2] at hf
      simp only [vertexTruthy, decide_eq_false_iff_not, not_not] at hf
      subst hf
      simp only [paraxOnRelease, hs2, if_neg (by decide : ¬(0 : ℕ) ≠ 0)]
  · intro t s2 v hs2 hnz
    simp only [paraxOnRelease, hs2, if_pos hnz]
  · rw [hpress]
  · rw [hpress]
    simp only [paraxOnRelease, if_neg (by decide : ¬(0 : ℕ) ≠ 0)]
  · rw [hpress]

/-- Witness for C8 at the concrete slope diagram and press of the C2
counterexample. -/
theorem claim_C8_witness :
    (setup_dgm_type DgmType.slp_dgm).data_slice.start = 0 ∧
    (paraxOnPress DgmType.slp_dgm 36 (fun p => p) true [0, 1]
        ⟨10, 40, 10, 40, 1, none⟩
        (⟨[10, 20, 30], [40, 50, 60], (7 : ℚ), none, 0⟩ : ParaxFig ℚ)).vertex
      = some 0 ∧
    paraxOnRelease DgmType.slp_dgm (fun _ pr ax _ q => (pr.set 0 q, ax))
      (fun pr _ => pr.headD 0) (fun q => q) ⟨0, 0, 9, 8, 1, none⟩
      (paraxOnPress DgmType.slp_dgm 36 (fun p => p) true [0, 1]
        ⟨10, 40, 10, 40, 1, none⟩
        (⟨[10, 20, 30], [40, 50, 60], (7 : ℚ), none, 0⟩ : ParaxFig ℚ)) =
      paraxOnPress DgmType.slp_dgm 36 (fun p => p) true [0, 1]
        ⟨10, 40, 10, 40, 1, none⟩
        (⟨[10, 20, 30], [40, 50, 60], (7 : ℚ), none, 0⟩ : ParaxFig ℚ) := by
  have h := claim_C8 ℚ (fun _ pr ax _ q => (pr.set 0 q, ax))
    (fun pr _ => pr.headD 0) (fun q => q) 36 (fun p => p) [0, 1]
    ⟨10, 40, 10, 40, 1, none⟩ ⟨0, 0, 9, 8, 1, none⟩
    (⟨[10, 20, 30], [40, 50, 60], (7 : ℚ), none, 0⟩ : ParaxFig ℚ)
    (by norm_num [lineHitScan, setup_dgm_type, PySlice.applyTo, hitScan,
      hitLoop, distance_sqr_2d])
  exact ⟨h.2.2.1, h.2.2.2.1, h.2.2.2.2.1⟩

/-- C4: `zoom(factor)` replaces the view box by a box with the same
center whose half-widths are each multiplied by `factor`, and re-plots
with the new box as the axis limits; `zoom_in` uses factor 0.8 and
`zoom_out` factor 1.2.  Proved for figures with `do_scale_bounds`
off (the constructor default); when that flag is set, `plot` recomputes
the view box from the system bounding box instead. -/
theorem claim_C4 (scale_bounds : Bbox → ℚ → Bbox) (oversize factor : ℚ)
    (s : ViewState) (hdsb : s.do_scale_bounds = false) :
    ((zoom scale_bounds oversize factor s).view_bbox.x0 +
      (zoom scale_bounds oversize factor s).view_bbox.x1) / 2 =
      (s.view_bbox.x0 + s.view_bbox.x1) / 2 ∧
    ((zoom scale_bounds oversize factor s).view_bbox.y0 +
      (zoom scale_bounds oversize factor s).view_bbox.y1) / 2 =
      (s.view_bbox.y0 + s.view_bbox.y1) / 2 ∧
    ((zoom scale_bounds oversize factor s).view_bbox.x1 -
      (zoom scale_bounds oversize factor s).view_bbox.x0) / 2 =
      factor * ((s.view_bbox.x1 - s.view_bbox.x0) / 2) ∧
    ((zoom scale_bounds oversize factor s).view_bbox.y1 -
      (zoom scale_bounds oversize factor s).view_bbox.y0) / 2 =
      factor * ((s.view_bbox.y1 - s.view_bbox.y0) / 2) ∧
    (zoom scale_bounds oversize factor s).xlim =
      ((zoom scale_bounds oversize factor s).view_bbox.x0,
       (zoom scale_bounds oversize factor s).view_bbox.x1) ∧
    (zoom scale_bounds oversize factor s).ylim =
      ((zoom scale_bounds oversize factor s).view_bbox.y0,
       (zoom scale_bounds oversize factor s).view_bbox.y1) ∧
    zoom_in scale_bounds oversize s = zoom scale_bounds oversize (8 / 10) s ∧
    zoom_out scale_bounds oversize s = zoom scale_bounds oversize (12 / 10) s := by
  refine ⟨?_, ?_, ?_, ?_, ?_, ?_, rfl, rfl⟩ <;>
    simp [zoom, plotView, set_view_bbox, update_axis_limits, hdsb] <;>
    ring

/-- Witness for C4 on a concrete view box `[[0,0],[4,2]]` zoomed by
one half. -/
theorem claim_C4_witness :
    ((zoom (fun b _ => b) 0 (1 / 2)
        (⟨⟨0, 0, 4, 2⟩, (0, 4), (0, 2), false, ⟨0, 0, 1, 1⟩⟩ :
          ViewState)).view_bbox.x0 +
      (zoom (fun b _ => b) 0 (1 / 2)
        (⟨⟨0, 0, 4, 2⟩, (0, 4), (0, 2), false, ⟨0, 0, 1, 1⟩⟩ :
          ViewState)).view_bbox.x1) / 2 =
      ((0 : ℚ) + 4) / 2 ∧
    ((zoom (fun b _ => b) 0 (1 / 2)
        (⟨⟨0, 0, 4, 2⟩, (0, 4), (0, 2), false, ⟨0, 0, 1, 1⟩⟩ :
          ViewState)).view_bbox.x1 -
      (zoom (fun b _ => b) 0 (1 / 2)
        (⟨⟨0, 0, 4, 2⟩, (0, 4), (0, 2), false, ⟨0, 0, 1, 1⟩⟩ :
          ViewState)).view_bbox.x0) / 2 =
      (1 / 2) * (((4 : ℚ) - 0) / 2) := by
  have h := claim_C4 (fun b _ => b) 0 (1 / 2)
    (⟨⟨0, 0, 4, 2⟩, (0, 4), (0, 2), false, ⟨0, 0, 1, 1⟩⟩ : ViewState) rfl
  exact ⟨h.1, h.2.2.1⟩

/-- C5: for artists made by `create_polygon`, `create_polyline` and
`create_vertex`, applying the highlight closure and then the
unhighlight closure restores the saved style exactly and clears the
saved `unhilite` state. -/
theorem claim_C5 :
    (∀ p : PolygonArtist, polygon_unhighlight (polygon_highlight p) =
      some { p with unhilite := none }) ∧
    (∀ (fill : Rgba) (lw : ℚ),
      polygon_unhighlight (polygon_highlight (create_polygon fill lw)) =
        some (create_polygon fill lw)) ∧
    (∀ p : LineArtist, polyline_unhighlight (polyline_highlight p) =
      some { p with unhilite := none }) ∧
    (∀ (poly : List (ℚ × ℚ)) (c h : String) (lw : ℚ),
      polyline_unhighlight (polyline_highlight (create_polyline poly c h lw)) =
        some (create_polyline poly c h lw)) ∧
    (∀ p : LineArtist, vertex_unhighlight (vertex_highlight p) =
      some { p with unhilite := none }) ∧
    (∀ (v : ℚ × ℚ) (c h : String) (lw : ℚ),
      vertex_unhighlight (vertex_highlight (create_vertex v c h lw)) =
        some (create_vertex v c h lw)) :=
  ⟨fun _ => rfl, fun _ _ => rfl, fun _ => rfl, fun _ _ _ _ => rfl,
   fun _ => rfl, fun _ _ _ _ => rfl⟩

/-- C6: for every pan gesture (press, any number of drags, release)
the release handler stores as the figure's view box exactly
`[[x_min, y_min], [x_max, y_max]]`, the axes bounds after the pan
ended. -/
theorem claim_C6 (tk : PanToolkit) (press_ev release_ev : Event)
    (drags : List Event) (s : PanFig) :
    (pan_gesture tk press_ev drags release_ev s).view_bbox =
      ⟨(get_xbound (pan_gesture tk press_ev drags release_ev s).ax).1,
       (get_ybound (pan_gesture tk press_ev drags release_ev s).ax).1,
       (get_xbound (pan_gesture tk press_ev drags release_ev s).ax).2,
       (get_ybound (pan_gesture tk press_ev drags release_ev s).ax).2⟩ ∧
    (pan_gesture tk press_ev drags release_ev s).ax =
      tk.end_pan ((drags.foldl (fun st ev => pan_on_drag tk ev st)
        (pan_on_press tk press_ev s)).ax) :=
  ⟨rfl, rfl⟩

lemma dictInsert_fresh {η : Type} (d : List (String × η)) (k : String)
    (v : η) (h : ∀ p ∈ d, p.1 ≠ k) : dictInsert d k v = d ++ [(k, v)] := by
  have hany : d.any (fun p => p.1 = k) = false := by
    rw [List.any_eq_false]
    intro p hp
    simpa using h p hp
  simp [dictInsert, hany]

lemma connect_foldl {η : Type} :
    ∀ (d : List (String × η)) (st : EventFig η),
      (d.map Prod.fst).Nodup →
      (∀ p ∈ d, ∀ q ∈ st.event_dict, q.1 ≠ p.1) →
      (List.foldl connectStep st d).event_dict = st.event_dict ++ d := by
  intro d
  induction d with
  | nil =>
    intro st _ _
    simp
  | cons p rest ih =>
    intro st hnd hdisj
    have hstep : (connectStep st p).event_dict = st.event_dict ++ [p] := by
      have hfresh : dictInsert st.event_dict p.1 p.2 = st.event_dict ++ [p] := by
        rw [dictInsert_fresh]
        intro q hq
        exact hdisj p (List.mem_cons_self _ _) q hq
      simp [connectStep, hfresh]
    have hnd1 := hnd
    rw [List.map_cons] at hnd1
    have hnd2 : (rest.map Prod.fst).Nodup := (List.nodup_cons.mp hnd1).2
    have hnotin : p.1 ∉ rest.map Prod.fst := (List.nodup_cons.mp hnd1).1
    rw [List.foldl_cons, ih (connectStep st p) hnd2 ?_, hstep,
      List.append_assoc, List.singleton_append]
    intro q hq r hr
    rw [hstep] at hr
    rcases List.mem_append.mp hr with hr1 | hr2
    · exact hdisj q (List.mem_cons_of_mem _ hq) r hr1
    · have : r = p := List.mem_singleton.mp hr2
      subst this
      intro hcon
      exact hnotin (hcon ▸ List.mem_map_of_mem Prod.fst hq)

lemma connect_events_fresh {η : Type} (d : List (String × η))
    (s : EventFig η) (hnd : (d.map Prod.fst).Nodup)
    (hempty : s.event_dict = []) :
    (connect_events d s).event_dict = d := by
  rw [connect_events, connect_foldl d _ hnd ?_]
  · simp [hempty]
  · intro p _ q hq
    have : q ∈ s.event_dict := hq
    rw [hempty] at this
    exact absurd this (List.not_mem_nil q)

/-- C10: `disconnect_events` returns the connected mapping and leaves
`event_dict` empty, and `connect_events` on the returned mapping
restores it, so disconnect followed by reconnect is a round trip on
`event_dict`; `ZoomBoxAction` saves the mapping at construction and its
release restores it (and sets the view box from the rubber-box
corners). -/
theorem claim_C10 (η : Type) (s : EventFig η)
    (hnd : (s.event_dict.map Prod.fst).Nodup) :
    (disconnect_events s).1 = s.event_dict ∧
    (disconnect_events s).2.event_dict = [] ∧
    (connect_events (disconnect_events s).1 (disconnect_events s).2).event_dict =
      s.event_dict ∧
    (∀ (v : ViewState) (pe re : Event),
      (zoom_box_on_release (zoom_box_init ⟨v, s⟩).1 pe re
        (zoom_box_init ⟨v, s⟩).2).events.event_dict = s.event_dict ∧
      (zoom_box_on_release (zoom_box_init ⟨v, s⟩).1 pe re
        (zoom_box_init ⟨v, s⟩).2).view.view_bbox =
        ⟨pe.xdata, pe.ydata, re.xdata, re.ydata⟩) := by
  refine ⟨rfl, rfl, connect_events_fresh _ _ hnd rfl, ?_⟩
  intro v pe re
  exact ⟨connect_events_fresh _ _ hnd rfl, rfl⟩

/-- Witness for C10 on a concrete two-entry event dict. -/
theorem claim_C10_witness :
    (connect_events
      (disconnect_events
        (⟨[("button_press_event", 1), ("motion_notify_event", 2)],
          some [5, 6], 7⟩ : EventFig ℕ)).1
      (disconnect_events
        (⟨[("button_press_event", 1), ("motion_notify_event", 2)],
          some [5, 6], 7⟩ : EventFig ℕ)).2).event_dict =
      [("button_press_event", 1), ("motion_notify_event", 2)] :=
  (claim_C10 ℕ
    (⟨[("button_press_event", 1), ("motion_notify_event", 2)],
      some [5, 6], 7⟩ : EventFig ℕ) (by simp)).2.2.1

/-!
Controller lemmas: the artist list at a location and the flag updates.
-/

lemma setFlag_mem_eq {ch : List Artist} {i : ℕ} {b : Bool} {a : Artist}
    (ha : a ∈ setFlag ch i b) (hid : a.id = i) : a.hilitedFlag = b := by
  rcases List.mem_map.mp ha with ⟨a0, _, rfl⟩
  by_cases h : a0.id = i
  · simp [h]
  · rw [if_neg h] at hid ⊢
    exact absurd hid h

lemma setFlag_mem_ne {ch : List Artist} {i : ℕ} {b : Bool} {a : Artist}
    (ha : a ∈ setFlag ch i b) (hid : a.id ≠ i) : a ∈ ch := by
  rcases List.mem_map.mp ha with ⟨a0, ha0, rfl⟩
  by_cases h : a0.id = i
  · rw [if_pos h] at hid
    exact absurd h hid
  · rwa [if_neg h]

lemma setFlag_exists_id (ch : List Artist) (i : ℕ) (b : Bool) (k : ℕ)
    (hex : ∃ a ∈ ch, a.id = k) : ∃ a ∈ setFlag ch i b, a.id = k := by
  rcases hex with ⟨a, ha, rfl⟩
  refine ⟨if a.id = i then { a with hilitedFlag := b } else a,
    List.mem_map_of_mem _ ha, ?_⟩
  by_cases h : a.id = i
  · simp [h]
  · simp [h]

lemma setFlag_map_id (ch : List Artist) (i : ℕ) (b : Bool) :
    (setFlag ch i b).map (fun a => a.id) = ch.map (fun a => a.id) := by
  rw [setFlag, List.map_map]
  apply List.map_congr_left
  intro a _
  by_cases h : a.id = i
  · simp [h]
  · simp [h]

lemma find_artists_mem_iff (contains : ℕ → Event → Bool × List ℕ)
    (ev : Event) (s : CtrlState) (si : SelectInfo) :
    si ∈ find_artists_at_location contains ev s ↔
      (si.artist ∈ s.children ∧ si.artist.hasShape = true ∧
       (contains si.artist.id ev).1 = true ∧
       si.info = (contains si.artist.id ev).2) := by
  rw [find_artists_at_location,
    (List.perm_insertionSort zDesc _).mem_iff, List.mem_filterMap]
  constructor
  · rintro ⟨a, ha, hfa⟩
    by_cases hsh : a.hasShape
    · rw [if_pos hsh] at hfa
      by_cases hc : (contains a.id ev).1
      · rw [if_pos hc] at hfa
        obtain rfl : (⟨a, (contains a.id ev).2⟩ : SelectInfo) = si :=
          Option.some.inj hfa
        exact ⟨ha, hsh, hc, rfl⟩
      · rw [if_neg hc] at hfa
        exact absurd hfa (Option.noConfusion)
    · rw [if_neg hsh] at hfa
      exact absurd hfa (Option.noConfusion)
  · rintro ⟨ha, hsh, hc, hinfo⟩
    refine ⟨si.artist, ha, ?_⟩
    rw [if_pos hsh, if_pos hc, ← hinfo]

lemma find_artists_sorted (contains : ℕ → Event → Bool × List ℕ)
    (ev : Event) (s : CtrlState) :
    List.Sorted zDesc (find_artists_at_location contains ev s) :=
  List.sorted_insertionSort zDesc _

lemma sorted_head_max {l : List SelectInfo} (hs : List.Sorted zDesc l)
    {si : SelectInfo} (hhead : l.head? = some si) :
    ∀ sj ∈ l, sj.artist.zorder ≤ si.artist.zorder := by
  cases l with
  | nil => exact absurd hhead (Option.noConfusion)
  | cons x t =>
    obtain rfl : x = si := Option.some.inj hhead
    intro sj hsj
    rcases List.mem_cons.mp hsj with rfl | ht
    · exact le_refl _
    · exact (List.sorted_cons.mp hs).1 sj ht

lemma ctrlOnMotion_none (contains : ℕ → Event → Bool × List ℕ)
    (ev : Event) (s : CtrlState) (hsel : s.selected = none) :
    ctrlOnMotion contains ev s =
      if Option.map (fun h : SelectInfo => h.artist.id)
          (find_artists_at_location contains ev s).head? ≠
          Option.map (fun h : SelectInfo => h.artist.id) s.hilited then
        { hiliteNext (find_artists_at_location contains ev s).head?
            (unhilitePrev s) with
          hilited := (find_artists_at_location contains ev s).head? }
      else s := by
  simp only [ctrlOnMotion, hsel]

/-- C3: on a motion event with no selection, the controller collects
exactly the shape-carrying artists containing the cursor, sorted by
zorder in descending order, and takes the head (highest zorder) as the
new hilited artist; if it differs from the current one the old artist
is unhighlighted, the new one is highlighted, and `self.hilited` is
updated (to `none` when the cursor is over nothing); when it is the
same artist nothing changes. -/
theorem claim_C3 (contains : ℕ → Event → Bool × List ℕ) (ev : Event)
    (s : CtrlState) (hsel : s.selected = none) :
    (∀ si, si ∈ find_artists_at_location contains ev s ↔
      (si.artist ∈ s.children ∧ si.artist.hasShape = true ∧
       (contains si.artist.id ev).1 = true ∧
       si.info = (contains si.artist.id ev).2)) ∧
    List.Sorted zDesc (find_artists_at_location contains ev s) ∧
    (∀ si, (find_artists_at_location contains ev s).head? = some si →
      ∀ sj ∈ find_artists_at_location contains ev s,
        sj.artist.zorder ≤ si.artist.zorder) ∧
    (Option.map (fun h : SelectInfo => h.artist.id)
        (find_artists_at_location contains ev s).head? =
      Option.map (fun h : SelectInfo => h.artist.id) s.hilited →
      ctrlOnMotion contains ev s = s) ∧
    (Option.map (fun h : SelectInfo => h.artist.id)
        (find_artists_at_location contains ev s).head? ≠
      Option.map (fun h : SelectInfo => h.artist.id) s.hilited →
      (ctrlOnMotion contains ev s).hilited =
        (find_artists_at_location contains ev s).head? ∧
      (∀ h, s.hilited = some h →
        ∀ a ∈ (ctrlOnMotion contains ev s).children, a.id = h.artist.id →
        (∀ nh, (find_artists_at_location contains ev s).head? = some nh →
          nh.artist.id ≠ h.artist.id) →
        a.hilitedFlag = false) ∧
      (∀ nh, (find_artists_at_location contains ev s).head? = some nh →
        ∀ a ∈ (ctrlOnMotion contains ev s).children, a.id = nh.artist.id →
        a.hilitedFlag = true)) := by
  refine ⟨find_artists_mem_iff contains ev s,
    find_artists_sorted contains ev s,
    ?_, ?_, ?_⟩
  · intro si hhead sj hsj
    exact sorted_head_max (find_artists_sorted contains ev s) hhead sj hsj
  · intro heq
    rw [ctrlOnMotion_none contains ev s hsel, if_neg (not_not_intro heq)]
  · intro hne
    rw [ctrlOnMotion_none contains ev s hsel, if_pos hne]
    refine ⟨rfl, ?_, ?_⟩
    · intro h hh a ha hid hnotnew
      cases hnext : (find_artists_at_location contains ev s).head? with
      | none =>
        rw [hnext] at ha
        simp only [hiliteNext, unhilitePrev, hh] at ha
        exact setFlag_mem_eq ha hid
      | some nh =>
        rw [hnext] at ha
        simp only [hiliteNext, unhilitePrev, hh] at ha
        have hne2 : a.id ≠ nh.artist.id := by
          rw [hid]
          exact Ne.symm (hnotnew nh hnext)
        have ha2 := setFlag_mem_ne ha hne2
        exact setFlag_mem_eq ha2 hid
    · intro nh hnext a ha hid
      rw [hnext] at ha
      simp only [hiliteNext] at ha
      exact setFlag_mem_eq ha hid

/-- Witness for C3: one shape-carrying artist under the cursor becomes
hilited and its flag is set. -/
theorem claim_C3_witness :
    (ctrlOnMotion (fun i _ => (decide (i = 1), [i])) ⟨3, 3, 3, 3, 1, none⟩
      (⟨[⟨0, 5, true, false⟩, ⟨1, 9, true, false⟩, ⟨2, 7, false, false⟩],
        none, none, true, true⟩ : CtrlState)).hilited =
      some ⟨⟨1, 9, true, false⟩, [1]⟩ ∧
    (∀ a ∈ (ctrlOnMotion (fun i _ => (decide (i = 1), [i]))
        ⟨3, 3, 3, 3, 1, none⟩
        (⟨[⟨0, 5, true, false⟩, ⟨1, 9, true, false⟩, ⟨2, 7, false, false⟩],
          none, none, true, true⟩ : CtrlState)).children,
      a.id = 1 → a.hilitedFlag = true) := by
  have hfind : find_artists_at_location (fun i _ => (decide (i = 1), [i]))
      ⟨3, 3, 3, 3, 1, none⟩
      (⟨[⟨0, 5, true, false⟩, ⟨1, 9, true, false⟩, ⟨2, 7, false, false⟩],
        none, none, true, true⟩ : CtrlState) =
      [⟨⟨1, 9, true, false⟩, [1]⟩] := rfl
  have h := claim_C3 (fun i _ => (decide (i = 1), [i])) ⟨3, 3, 3, 3, 1, none⟩
    (⟨[⟨0, 5, true, false⟩, ⟨1, 9, true, false⟩, ⟨2, 7, false, false⟩],
      none, none, true, true⟩ : CtrlState) rfl
  have hne : Option.map (fun h : SelectInfo => h.artist.id)
      (find_artists_at_location (fun i _ => (decide (i = 1), [i]))
        ⟨3, 3, 3, 3, 1, none⟩
        (⟨[⟨0, 5, true, false⟩, ⟨1, 9, true, false⟩, ⟨2, 7, false, false⟩],
          none, none, true, true⟩ : CtrlState)).head? ≠
      Option.map (fun h : SelectInfo => h.artist.id)
        (⟨[⟨0, 5, true, false⟩, ⟨1, 9, true, false⟩, ⟨2, 7, false, false⟩],
          none, none, true, true⟩ : CtrlState).hilited := by
    rw [hfind]
    simp
  obtain ⟨hhil, _, hflag⟩ := h.2.2.2.2 hne
  refine ⟨?_, ?_⟩
  · rw [hhil, hfind]
    rfl
  · intro a ha hid
    exact hflag ⟨⟨1, 9, true, false⟩, [1]⟩ (by rw [hfind]; rfl) a ha hid

/-!
Highlight invariant of the controller.
-/

/-- The single-highlight invariant: a child is in the highlighted
style exactly when it is the artist referenced by `self.hilited`, and
the hilited artist (if any) is among the children. -/
def CtrlInv (s : CtrlState) : Prop :=
  (∀ a ∈ s.children, (a.hilitedFlag = true ↔
    Option.map (fun h : SelectInfo => h.artist.id) s.hilited = some a.id)) ∧
  (∀ h, s.hilited = some h → ∃ a ∈ s.children, a.id = h.artist.id)

lemma initCtrl_inv (specs : List (ℚ × Bool)) (dsb : Bool) :
    CtrlInv (initCtrl specs dsb) := by
  constructor
  · intro a ha
    rcases List.mem_map.mp ha with ⟨p, _, rfl⟩
    simp [initCtrl]
  · intro h hcon
    exact absurd hcon (Option.noConfusion)

lemma ctrlStep_inv (contains : ℕ → Event → Bool × List ℕ) (e : UIEvent)
    (s : CtrlState) (hinv : CtrlInv s) : CtrlInv (ctrlStep contains s e) := by
  cases e with
  | press ev => exact hinv
  | release ev => exact hinv
  | motion ev =>
    show CtrlInv (ctrlOnMotion contains ev s)
    cases hsel : s.selected with
    | some si =>
      simp only [ctrlOnMotion, hsel]
      exact hinv
    | none =>
      rw [ctrlOnMotion_none contains ev s hsel]
      by_cases hne : Option.map (fun h : SelectInfo => h.artist.id)
          (find_artists_at_location contains ev s).head? ≠
          Option.map (fun h : SelectInfo => h.artist.id) s.hilited
      · rw [if_pos hne]
        cases hnext : (find_artists_at_location contains ev s).head? with
        | none =>
          cases hh : s.hilited with
          | none =>
            rw [hnext, hh] at hne
            exact absurd rfl hne
          | some h =>
            constructor
            · intro a ha
              simp only [hiliteNext, unhilitePrev, hh] at ha ⊢
              constructor
              · intro haf
                by_cases hid : a.id = h.artist.id
                · rw [setFlag_mem_eq ha hid] at haf
                  exact absurd haf (by simp)
                · have := (hinv.1 a (setFlag_mem_ne ha hid)).mp haf
                  rw [hh] at this
                  simp only [Option.map_some', Option.some.injEq] at this
                  exact absurd this.symm hid
              · intro hcon
                exact absurd hcon (by simp)
            · intro h2 hcon
              exact absurd hcon (Option.noConfusion)
        | some nh =>
          have hmemch : ∃ a ∈ s.children, a.id = nh.artist.id := by
            have hin : nh ∈ find_artists_at_location contains ev s :=
              List.mem_of_mem_head? hnext
            exact ⟨nh.artist,
              ((find_artists_mem_iff contains ev s nh).mp hin).1, rfl⟩
          constructor
          · intro a ha
            cases hh : s.hilited with
            | none =>
              simp only [hiliteNext, unhilitePrev, hh] at ha ⊢
              constructor
              · intro haf
                by_cases hid : a.id = nh.artist.id
                · simp [hid]
                · have := (hinv.1 a (setFlag_mem_ne ha hid)).mp haf
                  rw [hh] at this
                  exact absurd this (Option.noConfusion)
              · intro heq
                simp only [Option.map_some', Option.some.injEq] at heq
                exact setFlag_mem_eq ha heq.symm
            | some h =>
              simp only [hiliteNext, unhilitePrev, hh] at ha ⊢
              constructor
              · intro haf
                by_cases hid : a.id = nh.artist.id
                · simp [hid]
                · have ha2 := setFlag_mem_ne ha hid
                  by_cases hid2 : a.id = h.artist.id
                  · rw [setFlag_mem_eq ha2 hid2] at haf
                    exact absurd haf (by simp)
                  · have := (hinv.1 a (setFlag_mem_ne ha2 hid2)).mp haf
                    rw [hh] at this
                    simp only [Option.map_some', Option.some.injEq] at this
                    exact absurd this.symm hid2
              · intro heq
                simp only [Option.map_some', Option.some.injEq] at heq
                exact setFlag_mem_eq ha heq.symm
          · intro h2 hsome
            obtain rfl : nh = h2 := Option.some.inj hsome
            show ∃ a ∈ (hiliteNext (some nh) (unhilitePrev s)).children,
              a.id = nh.artist.id
            cases hh : s.hilited with
            | none =>
              simp only [hiliteNext, unhilitePrev, hh]
              exact setFlag_exists_id _ _ _ _ hmemch
            | some h =>
              simp only [hiliteNext, unhilitePrev, hh]
              exact setFlag_exists_id _ _ _ _ (setFlag_exists_id _ _ _ _ hmemch)
      · rw [if_neg hne]
        exact hinv

lemma ctrlStep_ids (contains : ℕ → Event → Bool × List ℕ) (e : UIEvent)
    (s : CtrlState) :
    (ctrlStep contains s e).children.map (fun a => a.id) =
      s.children.map (fun a => a.id) := by
  cases e with
  | press ev => rfl
  | release ev => rfl
  | motion ev =>
    show (ctrlOnMotion contains ev s).children.map (fun a => a.id) = _
    cases hsel : s.selected with
    | some si =>
      simp only [ctrlOnMotion, hsel]
    | none =>
      rw [ctrlOnMotion_none contains ev s hsel]
      by_cases hne : Option.map (fun h : SelectInfo => h.artist.id)
          (find_artists_at_location contains ev s).head? ≠
          Option.map (fun h : SelectInfo => h.artist.id) s.hilited
      · rw [if_pos hne]
        cases hnext : (find_artists_at_location contains ev s).head? with
        | none =>
          cases hh : s.hilited with
          | none => simp only [hiliteNext, unhilitePrev, hh]
          | some h =>
            simp only [hiliteNext, unhilitePrev, hh]
            exact setFlag_map_id _ _ _
        | some nh =>
          cases hh : s.hilited with
          | none =>
            simp only [hiliteNext, unhilitePrev, hh]
            exact setFlag_map_id _ _ _
          | some h =>
            simp only [hiliteNext, unhilitePrev, hh]
            rw [setFlag_map_id, setFlag_map_id]
      · rw [if_neg hne]

lemma ctrlRun_inv (contains : ℕ → Event → Bool × List ℕ) :
    ∀ (evs : List UIEvent) (s : CtrlState), CtrlInv s →
      CtrlInv (ctrlRun contains s evs) := by
  intro evs
  induction evs with
  | nil => intro s hinv; exact hinv
  | cons e rest ih =>
    intro s hinv
    exact ih (ctrlStep contains s e) (ctrlStep_inv contains e s hinv)

lemma ctrlRun_ids (contains : ℕ → Event → Bool × List ℕ) :
    ∀ (evs : List UIEvent) (s : CtrlState),
      (ctrlRun contains s evs).children.map (fun a => a.id) =
        s.children.map (fun a => a.id) := by
  intro evs
  induction evs with
  | nil => intro s; rfl
  | cons e rest ih =>
    intro s
    rw [ctrlRun, List.foldl_cons]
    exact (ih (ctrlStep contains s e)).trans (ctrlStep_ids contains e s)

lemma filter_flag_length_le_one {ch : List Artist}
    (hnd : (ch.map (fun a => a.id)).Nodup) (k : ℕ)
    (hall : ∀ a ∈ ch, a.hilitedFlag = true ↔ k = a.id) :
    (ch.filter (fun a => a.hilitedFlag)).length ≤ 1 := by
  induction ch with
  | nil => simp
  | cons a rest ih =>
    rw [List.map_cons] at hnd
    have hnotin : a.id ∉ rest.map (fun a => a.id) := (List.nodup_cons.mp hnd).1
    have hnd2 := (List.nodup_cons.mp hnd).2
    cases haf : a.hilitedFlag with
    | false =>
      rw [List.filter_cons_of_neg (by simp [haf])]
      exact ih hnd2 (fun b hb => hall b (List.mem_cons_of_mem _ hb))
    | true =>
      have hk : k = a.id := (hall a (List.mem_cons_self _ _)).mp haf
      rw [List.filter_cons_of_pos (by simp [haf])]
      have hrest : rest.filter (fun a => a.hilitedFlag) = [] := by
        rw [List.filter_eq_nil_iff]
        intro b hb
        simp only [Bool.not_eq_true]
        cases hbf : b.hilitedFlag with
        | false => rfl
        | true =>
          have hkb : k = b.id := (hall b (List.mem_cons_of_mem _ hb)).mp hbf
          have hbid : a.id = b.id := by rw [← hk, hkb]
          exact absurd (List.mem_map_of_mem (fun x => x.id) hb)
            (by rw [hbid] at hnotin; exact hnotin)
      rw [hrest]
      simp

/-- C9: after any sequence of press, motion, and release events from a
freshly plotted figure, at most one artist is in the highlighted
state, and an artist is highlighted exactly when it is the one
referenced by `self.hilited`. -/
theorem claim_C9 (contains : ℕ → Event → Bool × List ℕ)
    (specs : List (ℚ × Bool)) (dsb : Bool) (evs : List UIEvent) :
    ((ctrlRun contains (initCtrl specs dsb) evs).children.filter
      (fun a => a.hilitedFlag)).length ≤ 1 ∧
    (∀ a ∈ (ctrlRun contains (initCtrl specs dsb) evs).children,
      a.hilitedFlag = true ↔
      Option.map (fun h : SelectInfo => h.artist.id)
        (ctrlRun contains (initCtrl specs dsb) evs).hilited = some a.id) ∧
    (∀ h, (ctrlRun contains (initCtrl specs dsb) evs).hilited = some h →
      ∃ a ∈ (ctrlRun contains (initCtrl specs dsb) evs).children,
        a.id = h.artist.id ∧ a.hilitedFlag = true) := by
  have hinv := ctrlRun_inv contains evs (initCtrl specs dsb)
    (initCtrl_inv specs dsb)
  have hids : ((ctrlRun contains (initCtrl specs dsb) evs).children.map
      (fun a => a.id)).Nodup := by
    rw [ctrlRun_ids]
    have : (initCtrl specs dsb).children.map (fun a => a.id) =
        specs.enum.map Prod.fst := by
      rw [initCtrl, List.map_map]
      rfl
    rw [this, List.enum_map_fst]
    exact List.nodup_range _
  refine ⟨?_, hinv.1, ?_⟩
  · cases hh : (ctrlRun contains (initCtrl specs dsb) evs).hilited with
    | none =>
      have : ((ctrlRun contains (initCtrl specs dsb) evs).children.filter
          (fun a => a.hilitedFlag)) = [] := by
        rw [List.filter_eq_nil_iff]
        intro a ha
        have hiff := hinv.1 a ha
        rw [hh] at hiff
        simp only [Bool.not_eq_true]
        cases haf : a.hilitedFlag with
        | false => rfl
        | true => exact absurd (hiff.mp haf) (by simp)
      rw [this]
      simp
    | some h =>
      apply filter_flag_length_le_one hids h.artist.id
      intro a ha
      have := hinv.1 a ha
      rw [hh] at this
      simpa using this
  · intro h hh
    obtain ⟨a, ha, hid⟩ := hinv.2 h hh
    refine ⟨a, ha, hid, ?_⟩
    rw [hinv.1 a ha, hh, hid]
    rfl

end RayOptics
